import Mathlib

/-!
# Verification of the drawengine-core stroke pipeline

Shallow embedding of the Rust crate drawengine-core (point.rs, geometry.rs,
brush.rs, stroke.rs, transform.rs, history.rs, layer.rs, eraser.rs,
render.rs, serialization.rs, canvas.rs) and proofs about the claims of the
specification.

Numeric model: f64 values are embedded as rationals (ℚ).  The two f64
operations with no exact rational counterpart, square root and `powf`, are
abstracted into an operation bundle `FOps`; every theorem quantifies over
the bundle, so the results hold for any interpretation of those operations.
Rust `Uuid::new_v4()` (a random identifier) is modelled as a caller-supplied
natural number parameter.
-/

namespace DrawEngineCore

/-- Abstracted f64 operations without exact rational counterparts. -/
structure FOps where
  sqrt : ℚ → ℚ
  rpow : ℚ → ℚ → ℚ

/-- `f64::MAX` (exact value). -/
def f64MAX : ℚ := 2 ^ 1024 - 2 ^ 971

/-- `f64::MIN` (exact value, `= -f64::MAX`). -/
def f64MIN : ℚ := -f64MAX

/-- Rust `f64::clamp(lo, hi)` (for `lo ≤ hi`). -/
def fclamp (x lo hi : ℚ) : ℚ := min (max x lo) hi

/-- point.rs: `Point`. -/
structure Point where
  x : ℚ
  y : ℚ
deriving DecidableEq

/-- point.rs: `Point::distance_to` (`sqrt(dx*dx + dy*dy)`). -/
def Point.distance_to (ops : FOps) (p other : Point) : ℚ :=
  let dx := p.x - other.x
  let dy := p.y - other.y
  ops.sqrt (dx * dx + dy * dy)

/-- point.rs: `Point::lerp`. -/
def Point.lerp (p other : Point) (t : ℚ) : Point :=
  { x := p.x + (other.x - p.x) * t, y := p.y + (other.y - p.y) * t }

/-- transform.rs: `Viewport`. -/
structure Viewport where
  scale : ℚ
  offset_x : ℚ
  offset_y : ℚ
  min_scale : ℚ
  max_scale : ℚ
deriving DecidableEq

/-- transform.rs: `Viewport::new`. -/
def Viewport.new : Viewport :=
  { scale := 1, offset_x := 0, offset_y := 0, min_scale := 1/10, max_scale := 10 }

/-- transform.rs: `Viewport::screen_to_canvas`. -/
def Viewport.screen_to_canvas (v : Viewport) (screen : Point) : Point :=
  { x := (screen.x - v.offset_x) / v.scale, y := (screen.y - v.offset_y) / v.scale }

/-- transform.rs: `Viewport::canvas_to_screen`. -/
def Viewport.canvas_to_screen (v : Viewport) (canvas : Point) : Point :=
  { x := canvas.x * v.scale + v.offset_x, y := canvas.y * v.scale + v.offset_y }

/-- transform.rs: `Viewport::zoom`. -/
def Viewport.zoom (v : Viewport) (factor : ℚ) (focal_screen : Point) : Viewport :=
  let new_scale := fclamp (v.scale * factor) v.min_scale v.max_scale
  let actual_factor := new_scale / v.scale
  { v with
    offset_x := focal_screen.x - (focal_screen.x - v.offset_x) * actual_factor
    offset_y := focal_screen.y - (focal_screen.y - v.offset_y) * actual_factor
    scale := new_scale }

/-- transform.rs: `Viewport::pan`. -/
def Viewport.pan (v : Viewport) (dx dy : ℚ) : Viewport :=
  { v with offset_x := v.offset_x + dx, offset_y := v.offset_y + dy }

/-- point.rs: `Color` (f32 components embedded as ℚ). -/
structure Color where
  r : ℚ
  g : ℚ
  b : ℚ
  a : ℚ
deriving DecidableEq

/-- point.rs: `Color::black`. -/
def Color.black : Color := { r := 0, g := 0, b := 0, a := 1 }

/-- point.rs: `Color::white`. -/
def Color.white : Color := { r := 1, g := 1, b := 1, a := 1 }

/-- point.rs: `StrokePoint`. -/
structure StrokePoint where
  position : Point
  pressure : ℚ
  timestamp : ℚ
deriving DecidableEq

/-- point.rs: `StrokePoint::speed_to`. -/
def StrokePoint.speed_to (ops : FOps) (p other : StrokePoint) : ℚ :=
  let dist := p.position.distance_to ops other.position
  let dt := |other.timestamp - p.timestamp|
  if dt < 1/1000000000 then 0 else dist / dt

/-- Placeholder value for list indexing (Rust indexing panics out of bounds;
all uses below are within bounds under the builder invariants). -/
def dfltStrokePoint : StrokePoint := { position := ⟨0, 0⟩, pressure := 0, timestamp := 0 }

/-- point.rs: `BoundingBox`. -/
structure BoundingBox where
  min_x : ℚ
  min_y : ℚ
  max_x : ℚ
  max_y : ℚ
deriving DecidableEq

/-- point.rs: `BoundingBox::empty` (the `f64::MAX/f64::MIN` sentinel box). -/
def BoundingBox.empty : BoundingBox :=
  { min_x := f64MAX, min_y := f64MAX, max_x := f64MIN, max_y := f64MIN }

/-- point.rs: `BoundingBox::expand_to_include`. -/
def BoundingBox.expand_to_include (b : BoundingBox) (point : Point) : BoundingBox :=
  { min_x := min b.min_x point.x, min_y := min b.min_y point.y,
    max_x := max b.max_x point.x, max_y := max b.max_y point.y }

/-- point.rs: `BoundingBox::expand_by`. -/
def BoundingBox.expand_by (b : BoundingBox) (margin : ℚ) : BoundingBox :=
  { min_x := b.min_x - margin, min_y := b.min_y - margin,
    max_x := b.max_x + margin, max_y := b.max_y + margin }

/-- point.rs: `BoundingBox::intersects`. -/
def BoundingBox.intersects (b other : BoundingBox) : Bool :=
  decide (b.min_x ≤ other.max_x) && decide (b.max_x ≥ other.min_x) &&
    decide (b.min_y ≤ other.max_y) && decide (b.max_y ≥ other.min_y)

/-- point.rs: `BoundingBox::is_valid`. -/
def BoundingBox.is_valid (b : BoundingBox) : Bool :=
  decide (b.min_x ≤ b.max_x) && decide (b.min_y ≤ b.max_y)

/-- brush.rs: `BrushType`. -/
inductive BrushType where
  | Pen
  | Highlighter
  | Eraser
deriving DecidableEq

/-- brush.rs: `BrushConfig`. -/
structure BrushConfig where
  brush_type : BrushType
  color : Color
  base_width : ℚ
  min_width_factor : ℚ
  max_width_factor : ℚ
  pressure_sensitivity : ℚ
  velocity_sensitivity : ℚ
  smoothing : ℚ
deriving DecidableEq

/-- brush.rs: `BrushConfig::pen`. -/
def BrushConfig.pen (color : Color) (width : ℚ) : BrushConfig :=
  { brush_type := BrushType.Pen, color := color, base_width := width,
    min_width_factor := 3/10, max_width_factor := 3/2, pressure_sensitivity := 8/10,
    velocity_sensitivity := 3/10, smoothing := 1/2 }

/-- brush.rs: `BrushConfig::eraser`. -/
def BrushConfig.eraser (width : ℚ) : BrushConfig :=
  { brush_type := BrushType.Eraser, color := Color.white, base_width := width,
    min_width_factor := 8/10, max_width_factor := 12/10, pressure_sensitivity := 0,
    velocity_sensitivity := 0, smoothing := 3/10 }

/-- brush.rs: `BrushConfig::compute_width`. -/
def BrushConfig.compute_width (b : BrushConfig) (pressure velocity : ℚ) : ℚ :=
  let pressure_factor := 1 + (pressure - 1/2) * b.pressure_sensitivity
  let velocity_factor := 1 - (min velocity 1000 / 1000) * b.velocity_sensitivity
  let factor := fclamp (pressure_factor * velocity_factor) b.min_width_factor b.max_width_factor
  b.base_width * factor

/-- geometry.rs: `BezierSegment` (stroke.rs's `SerializableBezierSegment` has the
same fields and identity conversions in both directions, so one type embeds both). -/
structure BezierSegment where
  p0 : Point
  p1 : Point
  p2 : Point
  p3 : Point
  start_width : ℚ
  end_width : ℚ
deriving DecidableEq

/-- Placeholder value for list indexing (see `dfltStrokePoint`). -/
def dfltSegment : BezierSegment :=
  { p0 := ⟨0, 0⟩, p1 := ⟨0, 0⟩, p2 := ⟨0, 0⟩, p3 := ⟨0, 0⟩, start_width := 0, end_width := 0 }

/-- geometry.rs: `BezierSegment::evaluate`. -/
def BezierSegment.evaluate (seg : BezierSegment) (t : ℚ) : Point :=
  let mt := 1 - t
  let mt2 := mt * mt
  let mt3 := mt2 * mt
  let t2 := t * t
  let t3 := t2 * t
  { x := mt3 * seg.p0.x + 3 * mt2 * t * seg.p1.x + 3 * mt * t2 * seg.p2.x + t3 * seg.p3.x,
    y := mt3 * seg.p0.y + 3 * mt2 * t * seg.p1.y + 3 * mt * t2 * seg.p2.y + t3 * seg.p3.y }

/-- geometry.rs: `BezierSegment::width_at`. -/
def BezierSegment.width_at (seg : BezierSegment) (t : ℚ) : ℚ :=
  seg.start_width + (seg.end_width - seg.start_width) * t

/-- geometry.rs: `catmull_rom_to_bezier`. -/
def catmull_rom_to_bezier (ops : FOps) (p0 p1 p2 p3 : Point) (alpha : ℚ) :
    Point × Point × Point × Point :=
  let d1 := max (p0.distance_to ops p1) (1/1000000)
  let d2 := max (p1.distance_to ops p2) (1/1000000)
  let d3 := max (p2.distance_to ops p3) (1/1000000)
  let d1a := ops.rpow d1 alpha
  let d2a := ops.rpow d2 alpha
  let d3a := ops.rpow d3 alpha
  let d1_2a := ops.rpow d1 (2 * alpha)
  let d2_2a := ops.rpow d2 (2 * alpha)
  let d3_2a := ops.rpow d3 (2 * alpha)
  let b1x := (d1_2a * p2.x - d2_2a * p0.x + (2 * d1_2a + 3 * d1a * d2a + d2_2a) * p1.x) /
    (3 * d1a * (d1a + d2a))
  let b1y := (d1_2a * p2.y - d2_2a * p0.y + (2 * d1_2a + 3 * d1a * d2a + d2_2a) * p1.y) /
    (3 * d1a * (d1a + d2a))
  let b2x := (d3_2a * p1.x - d2_2a * p3.x + (2 * d3_2a + 3 * d3a * d2a + d2_2a) * p2.x) /
    (3 * d3a * (d3a + d2a))
  let b2y := (d3_2a * p1.y - d2_2a * p3.y + (2 * d3_2a + 3 * d3a * d2a + d2_2a) * p2.y) /
    (3 * d3a * (d3a + d2a))
  (p1, ⟨b1x, b1y⟩, ⟨b2x, b2y⟩, p2)

/-- stroke.rs: `Stroke` (UUID modelled as ℕ). -/
structure Stroke where
  id : ℕ
  points : List StrokePoint
  segments : List BezierSegment
  color : Color
  brush : BrushConfig
  bounding_box : BoundingBox
  is_eraser : Bool
deriving DecidableEq

/-- stroke.rs: `Stroke::new` (the random `Uuid::new_v4` is a caller-supplied id). -/
def Stroke.new (brush : BrushConfig) (id : ℕ) : Stroke :=
  { id := id, points := [], segments := [], color := brush.color, brush := brush,
    bounding_box := BoundingBox.empty,
    is_eraser := decide (brush.brush_type = BrushType.Eraser) }

/-- The box accumulated by the sampling loop of `Stroke::recompute_bounding_box`:
for each segment and each `t_step` in `0..=10`, expand to include the evaluated
point and then expand the whole accumulated box by half the width there. -/
def segments_sample_box (segments : List BezierSegment) : BoundingBox :=
  segments.foldl (fun bb seg =>
    (List.range 11).foldl (fun bb t_step =>
      let t := (t_step : ℚ) / 10
      let p := seg.evaluate t
      let w := seg.width_at t
      (bb.expand_to_include p).expand_by (w * (1/2))) bb) BoundingBox.empty

/-- stroke.rs: `Stroke::recompute_bounding_box`. -/
def Stroke.recompute_bounding_box (s : Stroke) : Stroke :=
  let bb := segments_sample_box s.segments
  if bb.is_valid then { s with bounding_box := bb } else s

/-- stroke.rs: `StrokeBuilder`. -/
structure StrokeBuilder where
  stroke : Stroke
  widths : List ℚ
  last_velocity : ℚ
deriving DecidableEq

/-- stroke.rs: `StrokeBuilder::new`. -/
def StrokeBuilder.new (brush : BrushConfig) (id : ℕ) : StrokeBuilder :=
  { stroke := Stroke.new brush id, widths := [], last_velocity := 0 }

/-- stroke.rs: `StrokeBuilder::add_point`. -/
def StrokeBuilder.add_point (ops : FOps) (b : StrokeBuilder) (point : StrokePoint) :
    StrokeBuilder × List BezierSegment :=
  let velocity :=
    match b.stroke.points.getLast? with
    | some prev => prev.speed_to ops point
    | none => 0
  let width := b.stroke.brush.compute_width point.pressure velocity
  let widths := b.widths ++ [width]
  let pts := b.stroke.points ++ [point]
  let n := pts.length
  if n < 2 then
    ({ b with
        last_velocity := velocity, widths := widths,
        stroke := { b.stroke with points := pts } }, [])
  else if n = 2 then
    let p0 := (pts.getD 0 dfltStrokePoint).position
    let p1 := (pts.getD 1 dfltStrokePoint).position
    let seg : BezierSegment :=
      { p0 := p0, p1 := p0.lerp p1 (1/3), p2 := p0.lerp p1 (2/3), p3 := p1,
        start_width := widths.getD 0 0, end_width := widths.getD 1 0 }
    let stroke2 := Stroke.recompute_bounding_box
      { b.stroke with points := pts, segments := b.stroke.segments ++ [seg] }
    ({ b with last_velocity := velocity, widths := widths, stroke := stroke2 }, [seg])
  else
    let idx := n - 1
    let segs0 := b.stroke.segments
    let segs1 :=
      if 4 ≤ n then
        let q := catmull_rom_to_bezier ops (pts.getD (idx - 3) dfltStrokePoint).position
          (pts.getD (idx - 2) dfltStrokePoint).position
          (pts.getD (idx - 1) dfltStrokePoint).position
          (pts.getD idx dfltStrokePoint).position (1/2)
        let seg : BezierSegment :=
          { p0 := q.1, p1 := q.2.1, p2 := q.2.2.1, p3 := q.2.2.2,
            start_width := widths.getD (idx - 2) 0, end_width := widths.getD (idx - 1) 0 }
        if 2 ≤ segs0.length then segs0.set (segs0.length - 1) seg else segs0
      else segs0
    let a := (pts.getD (idx - 1) dfltStrokePoint).position
    let c := (pts.getD idx dfltStrokePoint).position
    let last_seg : BezierSegment :=
      { p0 := a, p1 := a.lerp c (1/3), p2 := a.lerp c (2/3), p3 := c,
        start_width := widths.getD (idx - 1) 0, end_width := widths.getD idx 0 }
    let segs2 := segs1 ++ [last_seg]
    let stroke2 := Stroke.recompute_bounding_box
      { b.stroke with points := pts, segments := segs2 }
    let b2 := { b with last_velocity := velocity, widths := widths, stroke := stroke2 }
    (b2,
      if 2 ≤ segs2.length then
        [segs2.getD (segs2.length - 2) dfltSegment, segs2.getD (segs2.length - 1) dfltSegment]
      else [segs2.getD (segs2.length - 1) dfltSegment])

/-- stroke.rs: `StrokeBuilder::finish`. -/
def StrokeBuilder.finish (ops : FOps) (b : StrokeBuilder) : Stroke :=
  let n := b.stroke.points.length
  let stroke1 :=
    if 4 ≤ n then
      let pts := b.stroke.points
      let idx := n - 1
      let q := catmull_rom_to_bezier ops (pts.getD (idx - 3) dfltStrokePoint).position
        (pts.getD (idx - 2) dfltStrokePoint).position
        (pts.getD (idx - 1) dfltStrokePoint).position
        (pts.getD idx dfltStrokePoint).position (1/2)
      let seg : BezierSegment :=
        { p0 := q.1, p1 := q.2.1, p2 := q.2.2.1, p3 := q.2.2.2,
          start_width := b.widths.getD (idx - 2) 0, end_width := b.widths.getD (idx - 1) 0 }
      if b.stroke.segments.isEmpty then b.stroke
      else { b.stroke with
             segments := b.stroke.segments.set (b.stroke.segments.length - 1) seg }
    else b.stroke
  stroke1.recompute_bounding_box

/-- A builder reached from `StrokeBuilder::new` by feeding a stream of samples. -/
def StrokeBuilder.build (ops : FOps) (brush : BrushConfig) (id : ℕ)
    (ps : List StrokePoint) : StrokeBuilder :=
  ps.foldl (fun b p => (b.add_point ops p).1) (StrokeBuilder.new brush id)

/-- Stated from C3's words, for comparison with the code: the smallest
axis-aligned box that, for every segment and every `t = k/10` with `k` in
`0..10`, contains the sampled point inflated by half of the width at `t`. -/
def claimed_sample_box (segments : List BezierSegment) : BoundingBox :=
  segments.foldl (fun bb seg =>
    (List.range 11).foldl (fun bb t_step =>
      let t := (t_step : ℚ) / 10
      let p := seg.evaluate t
      let w := seg.width_at t
      { min_x := min bb.min_x (p.x - w * (1/2)), min_y := min bb.min_y (p.y - w * (1/2)),
        max_x := max bb.max_x (p.x + w * (1/2)), max_y := max bb.max_y (p.y + w * (1/2)) }) bb)
    BoundingBox.empty

/-- A degenerate one-segment stroke (all control points at the origin,
constant width 2) used to compare the stored box with the smallest box. -/
def flatSeg : BezierSegment :=
  { p0 := ⟨0, 0⟩, p1 := ⟨0, 0⟩, p2 := ⟨0, 0⟩, p3 := ⟨0, 0⟩, start_width := 2, end_width := 2 }

/-- A stroke holding `flatSeg` as its only segment. -/
def flatStroke : Stroke :=
  { id := 0, points := [], segments := [flatSeg], color := Color.black,
    brush := BrushConfig.pen Color.black 2, bounding_box := BoundingBox.empty,
    is_eraser := false }

/-- A concrete operation bundle used to instantiate theorems at concrete
inputs (any bundle works, since every theorem quantifies over the bundle). -/
def opsId : FOps := { sqrt := fun x => x, rpow := fun x _ => x }

/-- brush.rs: `impl Default for BrushConfig` (`pen(black, 2.0)`). -/
def BrushConfig.default : BrushConfig := BrushConfig.pen Color.black 2

/-- history.rs: `HistoryAction`. -/
inductive HistoryAction where
  | AddStroke (layer_index : ℕ) (stroke : Stroke)
  | RemoveStroke (layer_index : ℕ) (stroke : Stroke)
deriving DecidableEq

/-- history.rs: `HistoryAction::inverse`. -/
def HistoryAction.inverse : HistoryAction → HistoryAction
  | .AddStroke layer_index stroke => .RemoveStroke layer_index stroke
  | .RemoveStroke layer_index stroke => .AddStroke layer_index stroke

/-- history.rs: `History` (Rust `Vec` stacks; the top is the right end). -/
structure History where
  undo_stack : List HistoryAction
  redo_stack : List HistoryAction
  max_size : ℕ
deriving DecidableEq

/-- history.rs: `History::new`. -/
def History.new (max_size : ℕ) : History :=
  { undo_stack := [], redo_stack := [], max_size := max_size }

/-- history.rs: `History::push`: clear redo, append, and on overflow evict the
oldest entry (`Vec::remove(0)`). -/
def History.push (h : History) (action : HistoryAction) : History :=
  let u := h.undo_stack ++ [action]
  let u := if u.length > h.max_size then u.drop 1 else u
  { h with redo_stack := [], undo_stack := u }

/-- history.rs: `History::undo`: pop the last action, park it on redo, and
return its inverse together with the new state. -/
def History.undo (h : History) : Option HistoryAction × History :=
  match h.undo_stack.getLast? with
  | some action =>
    (some action.inverse,
      { h with undo_stack := h.undo_stack.dropLast,
               redo_stack := h.redo_stack ++ [action] })
  | none => (none, h)

/-- history.rs: `History::redo`: pop the last redo entry, push it back onto
undo, and return it verbatim together with the new state. -/
def History.redo (h : History) : Option HistoryAction × History :=
  match h.redo_stack.getLast? with
  | some action =>
    (some action,
      { h with redo_stack := h.redo_stack.dropLast,
               undo_stack := h.undo_stack ++ [action] })
  | none => (none, h)

/-- history.rs: `History::can_undo`. -/
def History.can_undo (h : History) : Bool := !h.undo_stack.isEmpty

/-- history.rs: `History::can_redo`. -/
def History.can_redo (h : History) : Bool := !h.redo_stack.isEmpty

/-- history.rs: `History::clear`. -/
def History.clear (h : History) : History := { h with undo_stack := [], redo_stack := [] }

/-- One client call against a `History`. -/
inductive HistOp where
  | pushOp (a : HistoryAction)
  | undoOp
  | redoOp
  | clearOp
deriving DecidableEq

/-- Run a sequence of history operations from a starting state (return values
of `undo`/`redo` are discarded). -/
def History.runOps (h : History) (l : List HistOp) : History :=
  l.foldl (fun h op =>
    match op with
    | .pushOp a => h.push a
    | .undoOp => (h.undo).2
    | .redoOp => (h.redo).2
    | .clearOp => h.clear) h

/-- Push a list of actions in order. -/
def History.pushList (h : History) (l : List HistoryAction) : History :=
  l.foldl History.push h

/-- The state after one `undo` call (the returned action is discarded). -/
def undoState (h : History) : History := (h.undo).2

/-- render.rs: `PathSegment`. -/
structure PathSegment where
  p0 : Point
  cp1 : Point
  cp2 : Point
  p3 : Point
  start_width : ℚ
  end_width : ℚ
deriving DecidableEq

/-- render.rs: `impl From<BezierSegment> for PathSegment`. -/
def PathSegment.ofBezier (b : BezierSegment) : PathSegment :=
  { p0 := b.p0, cp1 := b.p1, cp2 := b.p2, p3 := b.p3,
    start_width := b.start_width, end_width := b.end_width }

/-- render.rs: `RenderCommand`. -/
inductive RenderCommand where
  | Clear (color : Color)
  | SaveState
  | RestoreState
  | SetTransform (scale : ℚ) (translate_x : ℚ) (translate_y : ℚ)
  | DrawVariableWidthPath (segments : List PathSegment) (color : Color) (is_eraser : Bool)
deriving DecidableEq

/-- render.rs: `generate_full_render_commands` (the imperative `Vec` pushes are
embedded as a fold with an accumulator). -/
def generate_full_render_commands (strokes : List Stroke) (bg_color : Color)
    (scale translate_x translate_y : ℚ) : List RenderCommand :=
  let commands := [RenderCommand.Clear bg_color, RenderCommand.SaveState,
    RenderCommand.SetTransform scale translate_x translate_y]
  let commands := strokes.foldl (fun acc stroke =>
    if stroke.segments.isEmpty then acc
    else acc ++ [RenderCommand.DrawVariableWidthPath
      (stroke.segments.map PathSegment.ofBezier) stroke.color stroke.is_eraser]) commands
  commands ++ [RenderCommand.RestoreState]

/-- render.rs: `generate_incremental_commands`. -/
def generate_incremental_commands (new_segments : List BezierSegment) (color : Color)
    (is_eraser : Bool) : List RenderCommand :=
  if new_segments.isEmpty then []
  else [RenderCommand.DrawVariableWidthPath (new_segments.map PathSegment.ofBezier)
    color is_eraser]

/-- Placeholder stroke for list indexing (see `dfltStrokePoint`). -/
def dfltStroke : Stroke := Stroke.new BrushConfig.default 0

/-- layer.rs: `Layer` (UUID modelled as ℕ; f32 opacity as ℚ). -/
structure Layer where
  id : ℕ
  name : String
  visible : Bool
  opacity : ℚ
  strokes : List Stroke
deriving DecidableEq

/-- layer.rs: `Layer::new` (the random `Uuid::new_v4` is a caller-supplied id). -/
def Layer.new (name : String) (id : ℕ) : Layer :=
  { id := id, name := name, visible := true, opacity := 1, strokes := [] }

/-- Placeholder layer for list indexing (see `dfltStrokePoint`). -/
def dfltLayer : Layer := Layer.new "Layer 1" 0

/-- layer.rs: `Layer::add_stroke`. -/
def Layer.add_stroke (l : Layer) (stroke : Stroke) : Layer :=
  { l with strokes := l.strokes ++ [stroke] }

/-- layer.rs: `Layer::remove_stroke` (the Rust method mutates the layer and
returns the removed stroke; embedded as returning both). -/
def Layer.remove_stroke (l : Layer) (stroke_id : ℕ) : Layer × Option Stroke :=
  match l.strokes.findIdx? (fun s => s.id == stroke_id) with
  | some idx =>
    ({ l with strokes := l.strokes.eraseIdx idx }, some (l.strokes.getD idx dfltStroke))
  | none => (l, none)

/-- layer.rs: `LayerManager`. -/
structure LayerManager where
  layers : List Layer
  active_layer_index : ℕ
deriving DecidableEq

/-- layer.rs: `LayerManager::new` (fresh default-layer id supplied by caller). -/
def LayerManager.new (fresh : ℕ) : LayerManager :=
  { layers := [Layer.new "Layer 1" fresh], active_layer_index := 0 }

/-- layer.rs: `LayerManager::active_layer` (Rust indexing panics out of bounds;
the index is in bounds under the manager invariant). -/
def LayerManager.active_layer (lm : LayerManager) : Layer :=
  lm.layers.getD lm.active_layer_index dfltLayer

/-- Write back a mutated active layer (the `active_layer_mut` pattern). -/
def LayerManager.set_active (lm : LayerManager) (l : Layer) : LayerManager :=
  { lm with layers := lm.layers.set lm.active_layer_index l }

/-- layer.rs: `LayerManager::all_visible_strokes`. -/
def LayerManager.all_visible_strokes (lm : LayerManager) : List Stroke :=
  (lm.layers.filter (fun l => l.visible)).flatMap (fun l => l.strokes)

/-- eraser.rs: `find_strokes_to_erase` (the for-loop with `continue` and the
push is a fold; the two-level sampling loop with first-hit break is an `any`). -/
def find_strokes_to_erase (ops : FOps) (strokes : List Stroke) (eraser_point : Point)
    (eraser_radius : ℚ) : List ℕ :=
  let eraser_bb : BoundingBox :=
    { min_x := eraser_point.x - eraser_radius, min_y := eraser_point.y - eraser_radius,
      max_x := eraser_point.x + eraser_radius, max_y := eraser_point.y + eraser_radius }
  strokes.foldl (fun to_erase stroke =>
    if stroke.is_eraser then to_erase
    else if !stroke.bounding_box.is_valid then to_erase
    else if !stroke.bounding_box.intersects eraser_bb then to_erase
    else if stroke.segments.any (fun seg =>
        (List.range 21).any (fun step =>
          let t := (step : ℚ) / 20
          let p := seg.evaluate t
          decide (p.distance_to ops eraser_point ≤
            eraser_radius + seg.width_at t * (1/2)))) then
      to_erase ++ [stroke.id]
    else to_erase) []

/-- Stated from C6's words: the axis-aligned square of side `2r` centered at the
eraser point. -/
def eraser_square (e : Point) (r : ℚ) : BoundingBox :=
  { min_x := e.x - r, min_y := e.y - r, max_x := e.x + r, max_y := e.y + r }

/-- Stated from C6's words: a stroke qualifies for erasure when it is not an
eraser stroke, its bounding box is valid and intersects the eraser square, and
some segment has a sample `t = k/20` (k in 0..20) within
`r + width_at(t)·0.5` of the eraser point. -/
def erase_hit (ops : FOps) (e : Point) (r : ℚ) (s : Stroke) : Prop :=
  s.is_eraser = false ∧ s.bounding_box.is_valid = true ∧
    s.bounding_box.intersects (eraser_square e r) = true ∧
    ∃ seg ∈ s.segments, ∃ k : Fin 21,
      (seg.evaluate ((k.val : ℚ)/20)).distance_to ops e ≤
        r + seg.width_at ((k.val : ℚ)/20) * (1/2)

instance erase_hit_decidable (ops : FOps) (e : Point) (r : ℚ) (s : Stroke) :
    Decidable (erase_hit ops e r s) := by
  unfold erase_hit
  infer_instance

/-- serialization.rs: `DocumentData` (`version: u32` embedded as ℕ). -/
structure DocumentData where
  version : ℕ
  width : ℚ
  height : ℚ
  background_color : Color
  layers : List Layer
deriving DecidableEq

/-- canvas.rs: `DrawEngine`. -/
structure DrawEngine where
  layer_manager : LayerManager
  viewport : Viewport
  history : History
  background_color : Color
  canvas_width : ℚ
  canvas_height : ℚ
  current_brush : BrushConfig
  active_builder : Option StrokeBuilder
deriving DecidableEq

/-- canvas.rs: `DrawEngine::new` (fresh default-layer id supplied by caller;
`History::default()` is `History::new(100)`). -/
def DrawEngine.new (width height : ℚ) (fresh : ℕ) : DrawEngine :=
  { layer_manager := LayerManager.new fresh, viewport := Viewport.new,
    history := History.new 100, background_color := Color.white,
    canvas_width := width, canvas_height := height,
    current_brush := BrushConfig.default, active_builder := none }

/-- canvas.rs: `DrawEngine::full_render`. -/
def DrawEngine.full_render (e : DrawEngine) : List RenderCommand :=
  generate_full_render_commands e.layer_manager.all_visible_strokes e.background_color
    e.viewport.scale e.viewport.offset_x e.viewport.offset_y

/-- canvas.rs: `DrawEngine::begin_stroke` (fresh stroke id supplied by caller). -/
def DrawEngine.begin_stroke (ops : FOps) (e : DrawEngine) (stroke_id : ℕ)
    (screen_x screen_y pressure timestamp : ℚ) : DrawEngine × List RenderCommand :=
  let canvas_point := e.viewport.screen_to_canvas { x := screen_x, y := screen_y }
  let point : StrokePoint :=
    { position := canvas_point, pressure := pressure, timestamp := timestamp }
  let builder := StrokeBuilder.new e.current_brush stroke_id
  let builder2 := (builder.add_point ops point).1
  ({ e with active_builder := some builder2 }, [])

/-- canvas.rs: `DrawEngine::add_point`. -/
def DrawEngine.add_point (ops : FOps) (e : DrawEngine)
    (screen_x screen_y pressure timestamp : ℚ) : DrawEngine × List RenderCommand :=
  let canvas_point := e.viewport.screen_to_canvas { x := screen_x, y := screen_y }
  let point : StrokePoint :=
    { position := canvas_point, pressure := pressure, timestamp := timestamp }
  match e.active_builder with
  | some builder =>
    let r := builder.add_point ops point
    let e2 := { e with active_builder := some r.1 }
    if e2.current_brush.brush_type = BrushType.Eraser then (e2, [])
    else (e2, generate_incremental_commands r.2 e2.current_brush.color false)
  | none => (e, [])

/-- canvas.rs: the eraser arm of `DrawEngine::end_stroke`: for each sample of
the finished eraser stroke, collect intersecting stroke ids (deduplicated in
first-hit order), then remove each from the active layer, pushing a
`RemoveStroke` history action per removal. -/
def DrawEngine.erase_with (ops : FOps) (e : DrawEngine) (stroke : Stroke) : DrawEngine :=
  let layerStrokes := e.layer_manager.active_layer.strokes
  let erased_ids := stroke.points.foldl (fun acc sp =>
    let width := e.current_brush.compute_width sp.pressure 0
    let ids := find_strokes_to_erase ops layerStrokes sp.position (width * (1/2))
    ids.foldl (fun a i => if i ∈ a then a else a ++ [i]) acc) []
  let layer_idx := e.layer_manager.active_layer_index
  erased_ids.foldl (fun e2 i =>
    let r := e2.layer_manager.active_layer.remove_stroke i
    match r.2 with
    | some removed =>
      { e2 with
          layer_manager := e2.layer_manager.set_active r.1,
          history := e2.history.push (HistoryAction.RemoveStroke layer_idx removed) }
    | none => e2) e

/-- canvas.rs: `DrawEngine::end_stroke` (`take()` clears the builder first). -/
def DrawEngine.end_stroke (ops : FOps) (e : DrawEngine) :
    DrawEngine × List RenderCommand :=
  match e.active_builder with
  | none => (e, e.full_render)
  | some builder =>
    let stroke := builder.finish ops
    let e1 := { e with active_builder := none }
    let e2 :=
      if e1.current_brush.brush_type = BrushType.Eraser then e1.erase_with ops stroke
      else if stroke.segments ≠ [] then
        { e1 with
            history := e1.history.push
              (HistoryAction.AddStroke e1.layer_manager.active_layer_index stroke),
            layer_manager := e1.layer_manager.set_active
              (e1.layer_manager.active_layer.add_stroke stroke) }
      else e1
    (e2, e2.full_render)

/-- canvas.rs: `DrawEngine::load`. The serde_json parse of the input string is
abstracted as its outcome `parsed` (every input string maps to exactly one
outcome); fresh layer ids for the two possible `LayerManager::new` calls are
supplied by the caller. -/
def DrawEngine.load (e : DrawEngine) (parsed : Except String DocumentData)
    (fresh1 fresh2 : ℕ) : DrawEngine × Except String Unit :=
  match parsed with
  | .error msg => (e, .error msg)
  | .ok data =>
    let e1 := { e with
      canvas_width := data.width, canvas_height := data.height,
      background_color := data.background_color,
      layer_manager := LayerManager.new fresh1 }
    let e2 := { e1 with layer_manager := { e1.layer_manager with layers := data.layers } }
    let e3 :=
      if e2.layer_manager.layers.isEmpty then { e2 with layer_manager := LayerManager.new fresh2 }
      else e2
    let e4 := { e3 with history := e3.history.clear }
    (e4, Except.ok ())

/-- canvas.rs: `DrawEngine::stroke_count`. -/
def DrawEngine.stroke_count (e : DrawEngine) : ℕ :=
  (e.layer_manager.layers.map (fun l => l.strokes.length)).sum

/-- canvas.rs: `DrawEngine::can_undo`. -/
def DrawEngine.can_undo (e : DrawEngine) : Bool := e.history.can_undo

/-- canvas.rs: `DrawEngine::can_redo`. -/
def DrawEngine.can_redo (e : DrawEngine) : Bool := e.history.can_redo

/-- A degenerate zero-width segment sitting at the origin. -/
def zeroSeg : BezierSegment :=
  { p0 := ⟨0, 0⟩, p1 := ⟨0, 0⟩, p2 := ⟨0, 0⟩, p3 := ⟨0, 0⟩, start_width := 0, end_width := 0 }

/-- A stroke with id 7 sitting at the origin (qualifies for erasure there). -/
def hitStrokeA : Stroke :=
  { id := 7, points := [], segments := [zeroSeg], color := Color.black,
    brush := BrushConfig.default, bounding_box := ⟨-1, -1, 1, 1⟩, is_eraser := false }

/-- A second, distinct stroke that shares id 7 with `hitStrokeA`. -/
def hitStrokeB : Stroke :=
  { id := 7, points := [dfltStrokePoint], segments := [zeroSeg], color := Color.black,
    brush := BrushConfig.default, bounding_box := ⟨-1, -1, 1, 1⟩, is_eraser := false }

/-- A parsed document whose version field is not the known version 1. -/
def docV2 : DocumentData :=
  { version := 2, width := 800, height := 600, background_color := Color.white,
    layers := [] }

/-- C5: zooming with a positive factor from a viewport whose scale lies in
`[min_scale, max_scale]` (with `0 < min_scale`) keeps the scale in that range
and keeps the focal screen point fixed: the canvas point the focal point
mapped to before the zoom is mapped back to the focal point afterwards. -/
theorem zoom_clamps_and_fixes_focal (v : Viewport) (factor : ℚ) (f : Point)
    (hmin : 0 < v.min_scale) (h1 : v.min_scale ≤ v.scale) (h2 : v.scale ≤ v.max_scale)
    (_hf : 0 < factor) :
    (v.min_scale ≤ (v.zoom factor f).scale ∧ (v.zoom factor f).scale ≤ v.max_scale) ∧
      (v.zoom factor f).canvas_to_screen (v.screen_to_canvas f) = f := by
  have hs : v.scale ≠ 0 := ne_of_gt (lt_of_lt_of_le hmin h1)
  have hmm : v.min_scale ≤ v.max_scale := le_trans h1 h2
  refine ⟨⟨?_, ?_⟩, ?_⟩
  · simp only [Viewport.zoom, fclamp]
    exact le_min (le_max_right _ _) hmm
  · simp only [Viewport.zoom, fclamp]
    exact min_le_right _ _
  · obtain ⟨fx, fy⟩ := f
    simp only [Viewport.zoom, Viewport.canvas_to_screen, Viewport.screen_to_canvas,
      Point.mk.injEq]
    constructor <;> (field_simp; try ring)

/-- Witness for C5 at a concrete viewport. -/
theorem zoom_clamps_and_fixes_focal_witness :
    (0 : ℚ) < (Viewport.mk 1 0 0 1 10).min_scale ∧
      (((Viewport.mk 1 0 0 1 10).min_scale ≤ ((Viewport.mk 1 0 0 1 10).zoom 2 ⟨960, 540⟩).scale ∧
          ((Viewport.mk 1 0 0 1 10).zoom 2 ⟨960, 540⟩).scale ≤ (Viewport.mk 1 0 0 1 10).max_scale) ∧
        ((Viewport.mk 1 0 0 1 10).zoom 2 ⟨960, 540⟩).canvas_to_screen
            ((Viewport.mk 1 0 0 1 10).screen_to_canvas ⟨960, 540⟩) = ⟨960, 540⟩) :=
  ⟨by decide,
   zoom_clamps_and_fixes_focal (Viewport.mk 1 0 0 1 10) 2 ⟨960, 540⟩ (by decide) (by decide)
     (by decide) (by decide)⟩

theorem foldl_preserve {α β : Type _} (step : β → α → β) (P : β → Prop) :
    ∀ (l : List α) (b : β), (∀ b2 a, a ∈ l → P b2 → P (step b2 a)) → P b →
      P (l.foldl step b) := by
  intro l
  induction l with
  | nil => intro b _ h; simpa using h
  | cons a t ih =>
    intro b hstep h
    simp only [List.foldl_cons]
    exact ih _ (fun b2 a2 ha2 => hstep b2 a2 (List.mem_cons_of_mem _ ha2))
      (hstep b a (List.mem_cons_self _ _) h)

theorem foldl_reach {α β : Type _} (step : β → α → β) (P : β → Prop) :
    ∀ (l : List α) (b : β) (x : α), x ∈ l →
      (∀ b2 a, a ∈ l → P b2 → P (step b2 a)) → (∀ b2, P (step b2 x)) →
      P (l.foldl step b) := by
  intro l
  induction l with
  | nil => intro b x hx; cases hx
  | cons a t ih =>
    intro b x hx hstep hestab
    simp only [List.foldl_cons]
    rcases List.mem_cons.mp hx with h | h
    · subst h
      exact foldl_preserve step P t _
        (fun b2 a2 ha2 => hstep b2 a2 (List.mem_cons_of_mem _ ha2)) (hestab b)
    · exact ih _ _ h (fun b2 a2 ha2 => hstep b2 a2 (List.mem_cons_of_mem _ ha2)) hestab

theorem width_at_nonneg (seg : BezierSegment) (t : ℚ) (h0 : 0 ≤ seg.start_width)
    (h1 : 0 ≤ seg.end_width) (ht0 : 0 ≤ t) (ht1 : t ≤ 1) : 0 ≤ seg.width_at t := by
  unfold BezierSegment.width_at
  nlinarith

theorem expand_preserves_rect (bb : BoundingBox) (p : Point) (m xlo xhi ylo yhi : ℚ)
    (hm : 0 ≤ m)
    (h : bb.min_x ≤ xlo ∧ xhi ≤ bb.max_x ∧ bb.min_y ≤ ylo ∧ yhi ≤ bb.max_y) :
    ((bb.expand_to_include p).expand_by m).min_x ≤ xlo ∧
      xhi ≤ ((bb.expand_to_include p).expand_by m).max_x ∧
      ((bb.expand_to_include p).expand_by m).min_y ≤ ylo ∧
      yhi ≤ ((bb.expand_to_include p).expand_by m).max_y := by
  obtain ⟨h1, h2, h3, h4⟩ := h
  simp only [BoundingBox.expand_to_include, BoundingBox.expand_by]
  exact ⟨by linarith [min_le_left bb.min_x p.x], by linarith [le_max_left bb.max_x p.x],
    by linarith [min_le_left bb.min_y p.y], by linarith [le_max_left bb.max_y p.y]⟩

theorem expand_reaches_rect (bb : BoundingBox) (p : Point) (m : ℚ) :
    ((bb.expand_to_include p).expand_by m).min_x ≤ p.x - m ∧
      p.x + m ≤ ((bb.expand_to_include p).expand_by m).max_x ∧
      ((bb.expand_to_include p).expand_by m).min_y ≤ p.y - m ∧
      p.y + m ≤ ((bb.expand_to_include p).expand_by m).max_y := by
  simp only [BoundingBox.expand_to_include, BoundingBox.expand_by]
  exact ⟨by linarith [min_le_right bb.min_x p.x], by linarith [le_max_right bb.max_x p.x],
    by linarith [min_le_right bb.min_y p.y], by linarith [le_max_right bb.max_y p.y]⟩

theorem sample_box_contains (segs : List BezierSegment)
    (hw : ∀ seg ∈ segs, 0 ≤ seg.start_width ∧ 0 ≤ seg.end_width)
    (seg : BezierSegment) (hseg : seg ∈ segs) (k : ℕ) (hk : k ≤ 10) :
    (segments_sample_box segs).min_x ≤
        (seg.evaluate ((k : ℚ)/10)).x - seg.width_at ((k : ℚ)/10) * (1/2) ∧
      (seg.evaluate ((k : ℚ)/10)).x + seg.width_at ((k : ℚ)/10) * (1/2) ≤
        (segments_sample_box segs).max_x ∧
      (segments_sample_box segs).min_y ≤
        (seg.evaluate ((k : ℚ)/10)).y - seg.width_at ((k : ℚ)/10) * (1/2) ∧
      (seg.evaluate ((k : ℚ)/10)).y + seg.width_at ((k : ℚ)/10) * (1/2) ≤
        (segments_sample_box segs).max_y := by
  have trange : ∀ kk : ℕ, kk ∈ List.range 11 → 0 ≤ ((kk : ℚ)/10) ∧ ((kk : ℚ)/10) ≤ 1 := by
    intro kk hkk
    have hlt : kk < 11 := List.mem_range.mp hkk
    constructor
    · positivity
    · rw [div_le_one (by norm_num)]
      exact_mod_cast Nat.lt_succ_iff.mp hlt
  have innerpres : ∀ (sg : BezierSegment), sg ∈ segs →
      ∀ (bb : BoundingBox) (kk : ℕ), kk ∈ List.range 11 →
      (bb.min_x ≤ (seg.evaluate ((k : ℚ)/10)).x - seg.width_at ((k : ℚ)/10) * (1/2) ∧
        (seg.evaluate ((k : ℚ)/10)).x + seg.width_at ((k : ℚ)/10) * (1/2) ≤ bb.max_x ∧
        bb.min_y ≤ (seg.evaluate ((k : ℚ)/10)).y - seg.width_at ((k : ℚ)/10) * (1/2) ∧
        (seg.evaluate ((k : ℚ)/10)).y + seg.width_at ((k : ℚ)/10) * (1/2) ≤ bb.max_y) →
      (((bb.expand_to_include (sg.evaluate ((kk : ℚ)/10))).expand_by
          (sg.width_at ((kk : ℚ)/10) * (1/2))).min_x ≤
          (seg.evaluate ((k : ℚ)/10)).x - seg.width_at ((k : ℚ)/10) * (1/2) ∧
        (seg.evaluate ((k : ℚ)/10)).x + seg.width_at ((k : ℚ)/10) * (1/2) ≤
          ((bb.expand_to_include (sg.evaluate ((kk : ℚ)/10))).expand_by
            (sg.width_at ((kk : ℚ)/10) * (1/2))).max_x ∧
        ((bb.expand_to_include (sg.evaluate ((kk : ℚ)/10))).expand_by
          (sg.width_at ((kk : ℚ)/10) * (1/2))).min_y ≤
          (seg.evaluate ((k : ℚ)/10)).y - seg.width_at ((k : ℚ)/10) * (1/2) ∧
        (seg.evaluate ((k : ℚ)/10)).y + seg.width_at ((k : ℚ)/10) * (1/2) ≤
          ((bb.expand_to_include (sg.evaluate ((kk : ℚ)/10))).expand_by
            (sg.width_at ((kk : ℚ)/10) * (1/2))).max_y) := by
    intro sg hsg bb kk hkk hP
    have hm : 0 ≤ sg.width_at ((kk : ℚ)/10) * (1/2) := by
      have := trange kk hkk
      exact mul_nonneg (width_at_nonneg sg _ (hw sg hsg).1 (hw sg hsg).2 this.1 this.2)
        (by norm_num)
    exact expand_preserves_rect bb _ _ _ _ _ _ hm hP
  unfold segments_sample_box
  refine foldl_reach _
    (fun bb => bb.min_x ≤ (seg.evaluate ((k : ℚ)/10)).x - seg.width_at ((k : ℚ)/10) * (1/2) ∧
      (seg.evaluate ((k : ℚ)/10)).x + seg.width_at ((k : ℚ)/10) * (1/2) ≤ bb.max_x ∧
      bb.min_y ≤ (seg.evaluate ((k : ℚ)/10)).y - seg.width_at ((k : ℚ)/10) * (1/2) ∧
      (seg.evaluate ((k : ℚ)/10)).y + seg.width_at ((k : ℚ)/10) * (1/2) ≤ bb.max_y)
    segs BoundingBox.empty seg hseg ?_ ?_
  · intro bb sg hsg hP
    exact foldl_preserve _ _ (List.range 11) bb
      (fun bb2 kk hkk hP2 => innerpres sg hsg bb2 kk hkk hP2) hP
  · intro bb
    refine foldl_reach _ _ (List.range 11) bb k (List.mem_range.mpr (by omega))
      (fun bb2 kk hkk hP2 => innerpres seg hseg bb2 kk hkk hP2) ?_
    intro bb2
    exact expand_reaches_rect bb2 _ _

/-- C3 (counterexample to the claim as stated): for `flatStroke` the stored box
after `recompute_bounding_box` is not the smallest box containing every sampled
point inflated by half the width there — the loop expands the whole accumulated
box at every sample, so the margins pile up (`min_x = -11` instead of `-1`). -/
theorem recompute_bounding_box_not_smallest_box :
    (flatStroke.recompute_bounding_box).bounding_box.min_x = -11 ∧
      (claimed_sample_box flatStroke.segments).min_x = -1 ∧
      (flatStroke.recompute_bounding_box).bounding_box ≠
        claimed_sample_box flatStroke.segments := by
  have h1 : (flatStroke.recompute_bounding_box).bounding_box.min_x = -11 := by
    norm_num [Stroke.recompute_bounding_box, segments_sample_box,
      flatStroke, flatSeg, BezierSegment.evaluate, BezierSegment.width_at,
      BoundingBox.expand_to_include, BoundingBox.expand_by, BoundingBox.empty,
      BoundingBox.is_valid, f64MAX, f64MIN, List.range_succ, min_def, max_def,
      Bool.and_eq_true, decide_eq_true_eq]
  have h2 : (claimed_sample_box flatStroke.segments).min_x = -1 := by
    norm_num [claimed_sample_box, flatStroke, flatSeg, BezierSegment.evaluate,
      BezierSegment.width_at, BoundingBox.empty, f64MAX, f64MIN, List.range_succ,
      min_def, max_def]
  refine ⟨h1, h2, fun hcontra => ?_⟩
  rw [hcontra, h2] at h1
  norm_num at h1

/-- C3 (amended): after `recompute_bounding_box`, (1) if the freshly sampled box
is invalid the previously stored box is kept, and (2) if every segment has
nonnegative widths, the stored box contains every sampled point
`evaluate(seg, k/10)` (k in 0..10) inflated by half of `width_at(k/10)`.
(The claim's "equals the smallest such box" fails: the code expands the whole
accumulated box at each sample, so the stored box is generally larger.) -/
theorem recompute_bounding_box_spec (s : Stroke) :
    (¬ (segments_sample_box s.segments).is_valid = true →
      (s.recompute_bounding_box).bounding_box = s.bounding_box) ∧
    ((∀ seg ∈ s.segments, 0 ≤ seg.start_width ∧ 0 ≤ seg.end_width) →
      ∀ seg ∈ s.segments, ∀ k : ℕ, k ≤ 10 →
        (s.recompute_bounding_box).bounding_box.min_x ≤
            (seg.evaluate ((k : ℚ)/10)).x - seg.width_at ((k : ℚ)/10) * (1/2) ∧
          (seg.evaluate ((k : ℚ)/10)).x + seg.width_at ((k : ℚ)/10) * (1/2) ≤
            (s.recompute_bounding_box).bounding_box.max_x ∧
          (s.recompute_bounding_box).bounding_box.min_y ≤
            (seg.evaluate ((k : ℚ)/10)).y - seg.width_at ((k : ℚ)/10) * (1/2) ∧
          (seg.evaluate ((k : ℚ)/10)).y + seg.width_at ((k : ℚ)/10) * (1/2) ≤
            (s.recompute_bounding_box).bounding_box.max_y) := by
  constructor
  · intro hinv
    simp [Stroke.recompute_bounding_box, hinv]
  · intro hw seg hseg k hk
    have key := sample_box_contains s.segments hw seg hseg k hk
    have hwnn : 0 ≤ seg.width_at ((k : ℚ)/10) * (1/2) := by
      have ht0 : (0 : ℚ) ≤ (k : ℚ)/10 := by positivity
      have ht1 : ((k : ℚ)/10) ≤ 1 := by
        rw [div_le_one (by norm_num)]
        exact_mod_cast hk.trans (by norm_num)
      exact mul_nonneg (width_at_nonneg seg _ (hw seg hseg).1 (hw seg hseg).2 ht0 ht1)
        (by norm_num)
    have hvalid : (segments_sample_box s.segments).is_valid = true := by
      obtain ⟨h1, h2, h3, h4⟩ := key
      simp only [BoundingBox.is_valid, Bool.and_eq_true, decide_eq_true_eq]
      constructor <;> linarith
    simpa [Stroke.recompute_bounding_box, hvalid] using key

/-- Witness for C3 at the concrete stroke `flatStroke` and sample `k = 0`. -/
theorem recompute_bounding_box_spec_witness :
    (∀ seg ∈ flatStroke.segments, 0 ≤ seg.start_width ∧ 0 ≤ seg.end_width) ∧
      flatSeg ∈ flatStroke.segments ∧ (0 : ℕ) ≤ 10 ∧
      (flatStroke.recompute_bounding_box).bounding_box.min_x ≤
        (flatSeg.evaluate ((0 : ℚ)/10)).x - flatSeg.width_at ((0 : ℚ)/10) * (1/2) :=
  ⟨by decide, by decide, by decide,
    (((recompute_bounding_box_spec flatStroke).2 (by decide) flatSeg (by decide) 0
      (by decide)).1 : _)⟩

theorem recompute_bounding_box_segments (s : Stroke) :
    (s.recompute_bounding_box).segments = s.segments := by
  simp only [Stroke.recompute_bounding_box]
  split <;> rfl

theorem recompute_bounding_box_points (s : Stroke) :
    (s.recompute_bounding_box).points = s.points := by
  simp only [Stroke.recompute_bounding_box]
  split <;> rfl

theorem add_point_stroke_points (ops : FOps) (b : StrokeBuilder) (p : StrokePoint) :
    ((b.add_point ops p).1).stroke.points = b.stroke.points ++ [p] := by
  simp only [StrokeBuilder.add_point]
  split
  · rfl
  · split
    · simp [recompute_bounding_box_points]
    · simp [recompute_bounding_box_points]

theorem add_point_inv (ops : FOps) (b : StrokeBuilder) (p : StrokePoint)
    (h1 : b.widths.length = b.stroke.points.length)
    (h2 : b.stroke.segments.length = b.stroke.points.length - 1) :
    ((b.add_point ops p).1).widths.length = ((b.add_point ops p).1).stroke.points.length ∧
      ((b.add_point ops p).1).stroke.segments.length =
        ((b.add_point ops p).1).stroke.points.length - 1 := by
  simp only [StrokeBuilder.add_point]
  split
  · next hlt =>
    simp only [List.length_append, List.length_cons, List.length_nil] at hlt ⊢
    omega
  · split
    · next heq =>
      simp only [recompute_bounding_box_points, recompute_bounding_box_segments,
        List.length_append, List.length_cons, List.length_nil] at heq ⊢
      omega
    · next hlt heq =>
      simp only [recompute_bounding_box_points, recompute_bounding_box_segments,
        List.length_append, List.length_set, List.length_cons, List.length_nil] at hlt heq ⊢
      split
      · split
        · simp only [List.length_set]
          omega
        · omega
      · omega

theorem build_stroke_points (ops : FOps) (brush : BrushConfig) (id : ℕ)
    (ps : List StrokePoint) :
    (StrokeBuilder.build ops brush id ps).stroke.points = ps := by
  suffices h : ∀ (l : List StrokePoint) (b : StrokeBuilder),
      (l.foldl (fun b p => (b.add_point ops p).1) b).stroke.points =
        b.stroke.points ++ l by
    simpa [StrokeBuilder.build, StrokeBuilder.new, Stroke.new] using
      h ps (StrokeBuilder.new brush id)
  intro l
  induction l with
  | nil => intro b; simp
  | cons a t ih =>
    intro b
    simp [List.foldl_cons, ih, add_point_stroke_points]

theorem build_inv (ops : FOps) (brush : BrushConfig) (id : ℕ) (ps : List StrokePoint) :
    (StrokeBuilder.build ops brush id ps).widths.length =
        (StrokeBuilder.build ops brush id ps).stroke.points.length ∧
      (StrokeBuilder.build ops brush id ps).stroke.segments.length =
        (StrokeBuilder.build ops brush id ps).stroke.points.length - 1 := by
  suffices h : ∀ (l : List StrokePoint) (b : StrokeBuilder),
      b.widths.length = b.stroke.points.length →
      b.stroke.segments.length = b.stroke.points.length - 1 →
      (l.foldl (fun b p => (b.add_point ops p).1) b).widths.length =
          (l.foldl (fun b p => (b.add_point ops p).1) b).stroke.points.length ∧
        (l.foldl (fun b p => (b.add_point ops p).1) b).stroke.segments.length =
          (l.foldl (fun b p => (b.add_point ops p).1) b).stroke.points.length - 1 by
    exact h ps (StrokeBuilder.new brush id) (by simp [StrokeBuilder.new, Stroke.new])
      (by simp [StrokeBuilder.new, Stroke.new])
  intro l
  induction l with
  | nil => intro b ha hb; exact ⟨ha, hb⟩
  | cons a t ih =>
    intro b ha hb
    simp only [List.foldl_cons]
    obtain ⟨ha2, hb2⟩ := add_point_inv ops b a ha hb
    exact ih _ ha2 hb2

theorem set_last_eq_dropLast_append {α : Type _} :
    ∀ (l : List α) (a : α), l ≠ [] → l.set (l.length - 1) a = l.dropLast ++ [a] := by
  intro l
  induction l with
  | nil => intro a h; cases h rfl
  | cons x t ih =>
    intro a _
    cases t with
    | nil => rfl
    | cons y t2 =>
      have h2 := ih a (by simp)
      simp only [List.length_cons, Nat.add_sub_cancel] at h2 ⊢
      simp only [List.set]
      simp [h2]

/-- C1: a builder that holds `n ≥ 4` samples after `add_point` (it was built from
`n−1 ≥ 3` streamed samples) first replaces the current last segment with the
Catmull-Rom→Bézier cubic (α = 1/2) over the positions of samples `n−4..n−1`
with widths `(w_{n−3}, w_{n−2})`, and then appends a trailing cubic whose control
points trisect the chord from sample `n−2` to `n−1` with widths
`(w_{n−2}, w_{n−1})`, where `w_i` is the width stored for sample `i`. -/
theorem add_point_replaces_and_appends (ops : FOps) (brush : BrushConfig) (id : ℕ)
    (ps : List StrokePoint) (q : StrokePoint) (h3 : 3 ≤ ps.length) :
    (let b := StrokeBuilder.build ops brush id ps
     let b2 := (b.add_point ops q).1
     let pts := b2.stroke.points
     let w := fun i => b2.widths.getD i 0
     let n := ps.length + 1
     let cr := catmull_rom_to_bezier ops (pts.getD (n - 4) dfltStrokePoint).position
       (pts.getD (n - 3) dfltStrokePoint).position
       (pts.getD (n - 2) dfltStrokePoint).position
       (pts.getD (n - 1) dfltStrokePoint).position (1/2)
     let a := (pts.getD (n - 2) dfltStrokePoint).position
     let c := (pts.getD (n - 1) dfltStrokePoint).position
     pts = ps ++ [q] ∧ b2.widths.length = n ∧
       b2.stroke.segments =
         b.stroke.segments.dropLast ++
           [{ p0 := cr.1, p1 := cr.2.1, p2 := cr.2.2.1, p3 := cr.2.2.2,
              start_width := w (n - 3), end_width := w (n - 2) },
            { p0 := a, p1 := a.lerp c (1/3), p2 := a.lerp c (2/3), p3 := c,
              start_width := w (n - 2), end_width := w (n - 1) }]) := by
  have hpts0 : (StrokeBuilder.build ops brush id ps).stroke.points = ps :=
    build_stroke_points ops brush id ps
  obtain ⟨hw0, hs0⟩ := build_inv ops brush id ps
  rw [hpts0] at hw0 hs0
  have hpts2 := add_point_stroke_points ops (StrokeBuilder.build ops brush id ps) q
  rw [hpts0] at hpts2
  have hwlen : ((StrokeBuilder.build ops brush id ps).add_point ops q).1.widths.length =
      ps.length + 1 := by
    have := (add_point_inv ops (StrokeBuilder.build ops brush id ps) q
      (by rw [hpts0]; exact hw0) (by rw [hpts0]; exact hs0)).1
    rw [hpts2] at this
    simpa using this
  refine ⟨hpts2, hwlen, ?_⟩
  simp only [StrokeBuilder.add_point, hpts0, List.length_append, List.length_cons,
    List.length_nil, Nat.zero_add]
  split
  · next h => omega
  · split
    · next h => omega
    · split
      · split
        · simp only [recompute_bounding_box_segments, recompute_bounding_box_points]
          rw [set_last_eq_dropLast_append _ _ (by
            intro hnil
            rw [hnil] at hs0
            simp at hs0
            omega)]
          simp [List.append_assoc]
        · next h =>
          rw [hs0] at h
          omega
      · next h => omega

/-- Witness for C1 at a concrete builder holding three samples. -/
theorem add_point_replaces_and_appends_witness :
    3 ≤ ([dfltStrokePoint, dfltStrokePoint, dfltStrokePoint] : List StrokePoint).length ∧
      (let b := StrokeBuilder.build opsId (BrushConfig.pen Color.black 2) 0
         [dfltStrokePoint, dfltStrokePoint, dfltStrokePoint]
       let b2 := (b.add_point opsId dfltStrokePoint).1
       let pts := b2.stroke.points
       let w := fun i => b2.widths.getD i 0
       let n := ([dfltStrokePoint, dfltStrokePoint, dfltStrokePoint] :
         List StrokePoint).length + 1
       let cr := catmull_rom_to_bezier opsId (pts.getD (n - 4) dfltStrokePoint).position
         (pts.getD (n - 3) dfltStrokePoint).position
         (pts.getD (n - 2) dfltStrokePoint).position
         (pts.getD (n - 1) dfltStrokePoint).position (1/2)
       let a := (pts.getD (n - 2) dfltStrokePoint).position
       let c := (pts.getD (n - 1) dfltStrokePoint).position
       pts = [dfltStrokePoint, dfltStrokePoint, dfltStrokePoint] ++ [dfltStrokePoint] ∧
         b2.widths.length = n ∧
         b2.stroke.segments =
           b.stroke.segments.dropLast ++
             [{ p0 := cr.1, p1 := cr.2.1, p2 := cr.2.2.1, p3 := cr.2.2.2,
                start_width := w (n - 3), end_width := w (n - 2) },
              { p0 := a, p1 := a.lerp c (1/3), p2 := a.lerp c (2/3), p3 := c,
                start_width := w (n - 2), end_width := w (n - 1) }]) :=
  ⟨by decide,
   add_point_replaces_and_appends opsId (BrushConfig.pen Color.black 2) 0
     [dfltStrokePoint, dfltStrokePoint, dfltStrokePoint] dfltStrokePoint (by decide)⟩

theorem hist_op_inv (m : ℕ) (h : History) (op : HistOp)
    (hm : h.max_size = m)
    (hsum : h.undo_stack.length + h.redo_stack.length ≤ m) :
    (match op with
      | HistOp.pushOp a => h.push a
      | HistOp.undoOp => (h.undo).2
      | HistOp.redoOp => (h.redo).2
      | HistOp.clearOp => h.clear).max_size = m ∧
    (match op with
      | HistOp.pushOp a => h.push a
      | HistOp.undoOp => (h.undo).2
      | HistOp.redoOp => (h.redo).2
      | HistOp.clearOp => h.clear).undo_stack.length +
      (match op with
        | HistOp.pushOp a => h.push a
        | HistOp.undoOp => (h.undo).2
        | HistOp.redoOp => (h.redo).2
        | HistOp.clearOp => h.clear).redo_stack.length ≤ m := by
  cases op with
  | pushOp a =>
    simp only [History.push]
    split
    · simp only [List.length_drop, List.length_append, List.length_cons, List.length_nil,
        List.length_nil]
      omega
    · next hle =>
      simp only [List.length_append, List.length_cons, List.length_nil] at hle ⊢
      omega
  | undoOp =>
    simp only [History.undo]
    cases hl : h.undo_stack.getLast? with
    | some a =>
      have hne : h.undo_stack ≠ [] := by
        intro hnil
        rw [hnil] at hl
        simp at hl
      have hpos : 0 < h.undo_stack.length := List.length_pos.mpr hne
      simp only [List.length_dropLast, List.length_append, List.length_cons, List.length_nil]
      omega
    | none => exact ⟨hm, hsum⟩
  | redoOp =>
    simp only [History.redo]
    cases hl : h.redo_stack.getLast? with
    | some a =>
      have hne : h.redo_stack ≠ [] := by
        intro hnil
        rw [hnil] at hl
        simp at hl
      have hpos : 0 < h.redo_stack.length := List.length_pos.mpr hne
      simp only [List.length_dropLast, List.length_append, List.length_cons, List.length_nil]
      omega
    | none => exact ⟨hm, hsum⟩
  | clearOp =>
    constructor
    · simpa [History.clear] using hm
    · simp [History.clear]

theorem runOps_inv (m : ℕ) (l : List HistOp) :
    ((History.new m).runOps l).max_size = m ∧
      ((History.new m).runOps l).undo_stack.length +
        ((History.new m).runOps l).redo_stack.length ≤ m := by
  unfold History.runOps
  refine foldl_preserve _ (fun h => h.max_size = m ∧
    h.undo_stack.length + h.redo_stack.length ≤ m) l (History.new m) ?_ ?_
  · intro h op _ hP
    exact hist_op_inv m h op hP.1 hP.2
  · exact ⟨rfl, by simp [History.new]⟩

theorem push_length (h : History) (a : HistoryAction) :
    (h.push a).undo_stack.length =
      if h.undo_stack.length + 1 > h.max_size then h.undo_stack.length
      else h.undo_stack.length + 1 := by
  simp only [History.push, List.length_append, List.length_cons, List.length_nil,
    Nat.zero_add]
  split
  · simp only [List.length_drop, List.length_append, List.length_cons, List.length_nil]
    omega
  · simp

theorem push_max_size (h : History) (a : HistoryAction) : (h.push a).max_size = h.max_size := by
  simp [History.push]

theorem pushList_length (l : List HistoryAction) :
    ∀ (h : History), h.undo_stack.length ≤ h.max_size →
      (h.pushList l).undo_stack.length = min (h.undo_stack.length + l.length) h.max_size ∧
        (h.pushList l).max_size = h.max_size := by
  induction l with
  | nil =>
    intro h hle
    simp only [History.pushList, List.foldl_nil, List.length_nil]
    exact ⟨by omega, trivial⟩
  | cons a t ih =>
    intro h hle
    simp only [History.pushList, List.foldl_cons] at ih ⊢
    have h1 := push_length h a
    have h2 := push_max_size h a
    have h3 := ih (h.push a) (by rw [h1, h2]; split <;> omega)
    rw [h3.1, h3.2, h1, h2, List.length_cons]
    constructor
    · split <;> omega
    · rfl

theorem undoState_length (h : History) :
    (undoState h).undo_stack.length = h.undo_stack.length - 1 := by
  unfold undoState History.undo
  cases hl : h.undo_stack.getLast? with
  | some a => simp [List.length_dropLast]
  | none =>
    have : h.undo_stack = [] := by
      cases hu : h.undo_stack with
      | nil => rfl
      | cons x t => rw [hu] at hl; simp at hl
    simp [this]

theorem undo_fst_isSome (h : History) :
    ((h.undo).1.isSome = true) ↔ h.undo_stack ≠ [] := by
  unfold History.undo
  cases hl : h.undo_stack.getLast? with
  | some a =>
    simp only [Option.isSome_some, true_iff]
    intro hnil
    rw [hnil] at hl
    simp at hl
  | none =>
    simp only [Option.isSome_none, Bool.false_eq_true, false_iff, not_not]
    cases hu : h.undo_stack with
    | nil => rfl
    | cons x t => rw [hu] at hl; simp at hl

theorem iterate_undoState_length (j : ℕ) :
    ∀ (h : History), (undoState^[j] h).undo_stack.length = h.undo_stack.length - j := by
  induction j with
  | zero => intro h; simp
  | succ n ih =>
    intro h
    rw [Function.iterate_succ_apply, ih, undoState_length]
    omega

/-- C7: starting from `History::new(m)` and running any operation sequence,
(1) the undo stack never holds more than `m` actions, (2) immediately after any
`push` the redo stack is empty, and (3) after more than `m` consecutive pushes
exactly `m` successive `undo` calls return `Some` before `undo` returns `None`. -/
theorem history_bound_redo_clear_and_eviction (m : ℕ) (l : List HistOp)
    (acts : List HistoryAction) :
    ((History.new m).runOps l).undo_stack.length ≤ m ∧
      (∀ a : HistoryAction, ((((History.new m).runOps l).push a).redo_stack = [])) ∧
      (m < acts.length →
        (∀ j : ℕ, j < m →
          (((undoState^[j] (((History.new m).runOps l).pushList acts)).undo).1.isSome = true)) ∧
        ((undoState^[m] (((History.new m).runOps l).pushList acts)).undo).1 = none) := by
  obtain ⟨hmax, hsum⟩ := runOps_inv m l
  refine ⟨by omega, ?_, ?_⟩
  · intro a
    simp [History.push]
  · intro hK
    have hlen := pushList_length acts ((History.new m).runOps l) (by omega)
    have hlenm : (((History.new m).runOps l).pushList acts).undo_stack.length = m := by
      rw [hlen.1, hmax]
      omega
    constructor
    · intro j hj
      rw [undo_fst_isSome]
      intro hnil
      have := iterate_undoState_length j (((History.new m).runOps l).pushList acts)
      rw [hnil] at this
      simp only [List.length_nil] at this
      omega
    · have hz := iterate_undoState_length m (((History.new m).runOps l).pushList acts)
      rw [hlenm] at hz
      simp only [Nat.sub_self] at hz
      have hemp : (undoState^[m] (((History.new m).runOps l).pushList acts)).undo_stack = [] :=
        List.length_eq_zero.mp hz
      unfold History.undo
      rw [hemp]
      simp

/-- Witness for C7 with `max_size = 1` and two pushed actions. -/
theorem history_bound_redo_clear_and_eviction_witness :
    1 < ([HistoryAction.AddStroke 0 (Stroke.new BrushConfig.default 0),
          HistoryAction.AddStroke 0 (Stroke.new BrushConfig.default 0)] :
        List HistoryAction).length ∧
      ((undoState^[1] (((History.new 1).runOps []).pushList
          [HistoryAction.AddStroke 0 (Stroke.new BrushConfig.default 0),
           HistoryAction.AddStroke 0 (Stroke.new BrushConfig.default 0)])).undo).1 = none :=
  ⟨by decide,
   ((history_bound_redo_clear_and_eviction 1 []
      [HistoryAction.AddStroke 0 (Stroke.new BrushConfig.default 0),
       HistoryAction.AddStroke 0 (Stroke.new BrushConfig.default 0)]).2.2 (by decide)).2⟩

theorem foldl_skip_filter_map {γ δ : Type _} (p : γ → Bool) (f : γ → δ) :
    ∀ (l : List γ) (acc : List δ),
      l.foldl (fun acc x => if p x then acc else acc ++ [f x]) acc =
        acc ++ (l.filter (fun x => !p x)).map f := by
  intro l
  induction l with
  | nil => intro acc; simp
  | cons a t ih =>
    intro acc
    simp only [List.foldl_cons, List.filter_cons]
    by_cases hp : p a
    · simp [hp, ih]
    · simp [hp, ih]

/-- C8: `generate_full_render_commands` emits exactly `Clear(bg)`, `SaveState`,
`SetTransform`, one `DrawVariableWidthPath` per stroke with at least one segment
(in input order, with that stroke's segments, color and eraser flag; strokes with
zero segments are skipped), then `RestoreState`; an empty scene gives exactly 4
commands. -/
theorem full_render_commands_shape (strokes : List Stroke) (bg : Color)
    (scale tx ty : ℚ) :
    generate_full_render_commands strokes bg scale tx ty =
      [RenderCommand.Clear bg, RenderCommand.SaveState,
          RenderCommand.SetTransform scale tx ty]
        ++ (strokes.filter (fun s => decide (s.segments ≠ []))).map
            (fun s => RenderCommand.DrawVariableWidthPath
              (s.segments.map PathSegment.ofBezier) s.color s.is_eraser)
        ++ [RenderCommand.RestoreState] ∧
      (generate_full_render_commands [] bg scale tx ty).length = 4 := by
  constructor
  · simp only [generate_full_render_commands]
    rw [foldl_skip_filter_map (fun s => s.segments.isEmpty)
      (fun s => RenderCommand.DrawVariableWidthPath
        (s.segments.map PathSegment.ofBezier) s.color s.is_eraser) strokes]
    have hfilter : (strokes.filter (fun s => !s.segments.isEmpty)) =
        (strokes.filter (fun s => decide (s.segments ≠ []))) := by
      apply List.filter_congr
      intro x _
      cases hxs : x.segments <;> simp
    rw [hfilter, List.append_assoc]
  · rfl

/-- C10: `begin_stroke` returns an empty command list and modifies nothing but
the active builder (layers, history, viewport, background color, canvas
dimensions and current brush unchanged); its result does not depend on any
in-flight builder, so a second `begin_stroke` silently discards the in-flight
stroke with no trace in any layer or in history. -/
theorem begin_stroke_frame (ops : FOps) (e : DrawEngine) (sid : ℕ)
    (sx sy pr ts : ℚ) :
    (e.begin_stroke ops sid sx sy pr ts).2 = [] ∧
      (e.begin_stroke ops sid sx sy pr ts).1.layer_manager = e.layer_manager ∧
      (e.begin_stroke ops sid sx sy pr ts).1.history = e.history ∧
      (e.begin_stroke ops sid sx sy pr ts).1.viewport = e.viewport ∧
      (e.begin_stroke ops sid sx sy pr ts).1.background_color = e.background_color ∧
      (e.begin_stroke ops sid sx sy pr ts).1.canvas_width = e.canvas_width ∧
      (e.begin_stroke ops sid sx sy pr ts).1.canvas_height = e.canvas_height ∧
      (e.begin_stroke ops sid sx sy pr ts).1.current_brush = e.current_brush ∧
      (∀ ab : Option StrokeBuilder,
        ({ e with active_builder := ab } : DrawEngine).begin_stroke ops sid sx sy pr ts =
          e.begin_stroke ops sid sx sy pr ts) :=
  ⟨rfl, rfl, rfl, rfl, rfl, rfl, rfl, rfl, fun _ => rfl⟩

/-- C4: when `load` returns an error (the parse failed), the engine is left
untouched: layers, history, viewport, current brush, canvas dimensions,
background color and the active builder all keep their previous values. -/
theorem load_error_leaves_engine_unchanged (e : DrawEngine)
    (parsed : Except String DocumentData) (f1 f2 : ℕ) (msg : String)
    (herr : (e.load parsed f1 f2).2 = Except.error msg) :
    (e.load parsed f1 f2).1.layer_manager = e.layer_manager ∧
      (e.load parsed f1 f2).1.history = e.history ∧
      (e.load parsed f1 f2).1.viewport = e.viewport ∧
      (e.load parsed f1 f2).1.current_brush = e.current_brush ∧
      (e.load parsed f1 f2).1.canvas_width = e.canvas_width ∧
      (e.load parsed f1 f2).1.canvas_height = e.canvas_height ∧
      (e.load parsed f1 f2).1.background_color = e.background_color ∧
      (e.load parsed f1 f2).1.active_builder = e.active_builder := by
  cases parsed with
  | error m => exact ⟨rfl, rfl, rfl, rfl, rfl, rfl, rfl, rfl⟩
  | ok data => simp [DrawEngine.load] at herr

/-- Witness for C4 at a concrete engine and a failed parse. -/
theorem load_error_leaves_engine_unchanged_witness :
    (((DrawEngine.new 100 100 0).load (Except.error "bad") 0 0).2 =
        Except.error "bad") ∧
      ((DrawEngine.new 100 100 0).load (Except.error "bad") 0 0).1.layer_manager =
        (DrawEngine.new 100 100 0).layer_manager :=
  ⟨rfl, (load_error_leaves_engine_unchanged (DrawEngine.new 100 100 0)
    (Except.error "bad") 0 0 "bad" rfl).1⟩

/-- C2 (code behavior at the failing input): `DocumentData::load_from_json` is a
plain serde parse and `DrawEngine::load` never inspects the version field, so
loading a well-formed document with version 2 succeeds and the engine adopts the
document instead of returning an error. -/
theorem load_accepts_unknown_version :
    docV2.version ≠ 1 ∧
      ((DrawEngine.new 100 100 0).load (Except.ok docV2) 1 2).2 = Except.ok () ∧
      ((DrawEngine.new 100 100 0).load (Except.ok docV2) 1 2).1.canvas_width = 800 := by
  refine ⟨by decide, rfl, ?_⟩
  simp [DrawEngine.load, DrawEngine.new, docV2]

theorem single_point_builder (ops : FOps) (brush : BrushConfig) (sid : ℕ)
    (p : StrokePoint) :
    ((StrokeBuilder.new brush sid).add_point ops p).1.stroke.segments = [] ∧
      ((StrokeBuilder.new brush sid).add_point ops p).1.stroke.points = [p] := by
  constructor <;> simp [StrokeBuilder.add_point, StrokeBuilder.new, Stroke.new]

theorem finish_single_point (ops : FOps) (b : StrokeBuilder)
    (hp : b.stroke.points.length = 1) (hs : b.stroke.segments = []) :
    (b.finish ops).segments = [] := by
  simp [StrokeBuilder.finish, hp, hs, recompute_bounding_box_segments]

/-- C9: with a non-eraser brush, `begin_stroke` immediately followed by
`end_stroke` (no intervening `add_point`, so the finished stroke has a single
sample and zero segments) leaves every layer's stroke list unchanged, pushes
nothing onto history (stroke_count, can_undo, can_redo unchanged) and returns
the full-render command list. -/
theorem begin_end_single_sample_noop (ops : FOps) (e : DrawEngine) (sid : ℕ)
    (sx sy pr ts : ℚ) (hbrush : e.current_brush.brush_type ≠ BrushType.Eraser) :
    (((e.begin_stroke ops sid sx sy pr ts).1.end_stroke ops).1.layer_manager =
        e.layer_manager) ∧
      (((e.begin_stroke ops sid sx sy pr ts).1.end_stroke ops).1.history = e.history) ∧
      (((e.begin_stroke ops sid sx sy pr ts).1.end_stroke ops).1.stroke_count =
        e.stroke_count) ∧
      (((e.begin_stroke ops sid sx sy pr ts).1.end_stroke ops).1.can_undo = e.can_undo) ∧
      (((e.begin_stroke ops sid sx sy pr ts).1.end_stroke ops).1.can_redo = e.can_redo) ∧
      (((e.begin_stroke ops sid sx sy pr ts).1.end_stroke ops).2 = e.full_render) := by
  have h1 := single_point_builder ops e.current_brush sid
    { position := e.viewport.screen_to_canvas { x := sx, y := sy },
      pressure := pr, timestamp := ts }
  have hfin : (((StrokeBuilder.new e.current_brush sid).add_point ops
      { position := e.viewport.screen_to_canvas { x := sx, y := sy },
        pressure := pr, timestamp := ts }).1.finish ops).segments = [] :=
    finish_single_point ops _ (by rw [h1.2]; rfl) h1.1
  refine ⟨?_, ?_, ?_, ?_, ?_, ?_⟩ <;>
    simp [DrawEngine.begin_stroke, DrawEngine.end_stroke, hbrush, hfin,
      DrawEngine.stroke_count, DrawEngine.can_undo, DrawEngine.can_redo,
      DrawEngine.full_render]

/-- Witness for C9 at a concrete engine (default pen brush). -/
theorem begin_end_single_sample_noop_witness :
    (DrawEngine.new 100 100 0).current_brush.brush_type ≠ BrushType.Eraser ∧
      ((((DrawEngine.new 100 100 0).begin_stroke opsId 1 0 0 0 0).1.end_stroke
          opsId).1.layer_manager = (DrawEngine.new 100 100 0).layer_manager) :=
  ⟨by decide,
   (begin_end_single_sample_noop opsId (DrawEngine.new 100 100 0) 1 0 0 0 0
     (by decide)).1⟩

theorem stroke_step_eq (ops : FOps) (e : Point) (r : ℚ) (s : Stroke) (acc : List ℕ) :
    (if s.is_eraser then acc
     else if !s.bounding_box.is_valid then acc
     else if !s.bounding_box.intersects
         { min_x := e.x - r, min_y := e.y - r, max_x := e.x + r, max_y := e.y + r } then acc
     else if s.segments.any (fun seg =>
         (List.range 21).any (fun step =>
           let t := (step : ℚ) / 20
           let p := seg.evaluate t
           decide (p.distance_to ops e ≤ r + seg.width_at t * (1/2)))) then
       acc ++ [s.id]
     else acc) =
    (if decide (erase_hit ops e r s) then acc ++ [s.id] else acc) := by
  cases h1 : s.is_eraser with
  | true => simp [erase_hit, h1]
  | false =>
    cases h2 : s.bounding_box.is_valid with
    | false => simp [erase_hit, h1, h2]
    | true =>
      cases h3 : s.bounding_box.intersects
          { min_x := e.x - r, min_y := e.y - r, max_x := e.x + r, max_y := e.y + r } with
      | false => simp [erase_hit, eraser_square, h1, h2, h3]
      | true =>
        simp [erase_hit, eraser_square, h1, h2, h3]
        refine if_congr ?_ rfl rfl
        constructor
        · rintro ⟨seg, hseg, step, hstep, hle⟩
          exact ⟨seg, hseg, ⟨step, hstep⟩, hle⟩
        · rintro ⟨seg, hseg, k, hle⟩
          exact ⟨seg, hseg, k.val, k.isLt, hle⟩

theorem foldl_step_filter_map {γ : Type _} (step : List ℕ → γ → List ℕ)
    (p : γ → Bool) (f : γ → ℕ)
    (hstep : ∀ (acc : List ℕ) (x : γ), step acc x = if p x then acc ++ [f x] else acc) :
    ∀ (l : List γ) (acc : List ℕ), l.foldl step acc = acc ++ (l.filter p).map f := by
  intro l
  induction l with
  | nil => intro acc; simp
  | cons a t ih =>
    intro acc
    simp only [List.foldl_cons, hstep, List.filter_cons]
    by_cases hp : p a = true
    · simp only [hp, if_true, if_pos]
      rw [ih]
      simp
    · simp only [hp, if_false, if_neg hp]
      rw [ih]
      simp [hp]

theorem find_strokes_to_erase_eq_filter (ops : FOps) (strokes : List Stroke)
    (e : Point) (r : ℚ) :
    find_strokes_to_erase ops strokes e r =
      (strokes.filter (fun s => decide (erase_hit ops e r s))).map (fun s => s.id) := by
  simp only [find_strokes_to_erase]
  rw [foldl_step_filter_map _ (fun s => decide (erase_hit ops e r s)) (fun s => s.id)
    (fun acc x => stroke_step_eq ops e r x acc) strokes []]
  simp

/-- C6 (amended): `find_strokes_to_erase` returns, in input (first-hit) order,
one id per stroke satisfying the hit conditions (not an eraser stroke, valid
bounding box intersecting the eraser square of side `2r`, and some segment
sample `t = k/20` within `r + width_at(t)·0.5` of the eraser point); the ids are
pairwise distinct provided the input strokes' ids are. (The claim's
unconditional "each at most once" fails when distinct qualifying strokes share
an id.) -/
theorem find_strokes_to_erase_spec (ops : FOps) (strokes : List Stroke)
    (e : Point) (r : ℚ) :
    find_strokes_to_erase ops strokes e r =
      (strokes.filter (fun s => decide (erase_hit ops e r s))).map (fun s => s.id) ∧
      ((strokes.map (fun s => s.id)).Nodup →
        (find_strokes_to_erase ops strokes e r).Nodup) := by
  refine ⟨find_strokes_to_erase_eq_filter ops strokes e r, ?_⟩
  intro hnd
  rw [find_strokes_to_erase_eq_filter]
  exact List.Nodup.sublist (List.Sublist.map _ (List.filter_sublist _)) hnd

/-- Witness for C6 at a single qualifying stroke with a duplicate-free id list. -/
theorem find_strokes_to_erase_spec_witness :
    (([hitStrokeA] : List Stroke).map (fun s => s.id)).Nodup ∧
      (find_strokes_to_erase opsId [hitStrokeA] ⟨0, 0⟩ 1).Nodup :=
  ⟨by decide, (find_strokes_to_erase_spec opsId [hitStrokeA] ⟨0, 0⟩ 1).2 (by decide)⟩

/-- C6 (counterexample to "each at most once" as stated): two distinct strokes
sharing id 7 both qualify, and `find_strokes_to_erase` returns the id twice. -/
theorem find_strokes_duplicate_ids :
    hitStrokeA ≠ hitStrokeB ∧
      find_strokes_to_erase opsId [hitStrokeA, hitStrokeB] ⟨0, 0⟩ 1 = [7, 7] ∧
      ¬ (find_strokes_to_erase opsId [hitStrokeA, hitStrokeB] ⟨0, 0⟩ 1).Nodup := by
  have hA : erase_hit opsId ⟨0, 0⟩ 1 hitStrokeA := by
    refine ⟨rfl, ?_, ?_, ⟨zeroSeg, ?_, ⟨⟨0, by norm_num⟩, ?_⟩⟩⟩
    · norm_num [hitStrokeA, BoundingBox.is_valid, Bool.and_eq_true, decide_eq_true_eq]
    · norm_num [hitStrokeA, BoundingBox.intersects, eraser_square, Bool.and_eq_true,
        decide_eq_true_eq, ge_iff_le]
    · simp [hitStrokeA]
    · norm_num [zeroSeg, BezierSegment.evaluate, BezierSegment.width_at,
        Point.distance_to, opsId]
  have hB : erase_hit opsId ⟨0, 0⟩ 1 hitStrokeB := by
    refine ⟨rfl, ?_, ?_, ⟨zeroSeg, ?_, ⟨⟨0, by norm_num⟩, ?_⟩⟩⟩
    · norm_num [hitStrokeB, BoundingBox.is_valid, Bool.and_eq_true, decide_eq_true_eq]
    · norm_num [hitStrokeB, BoundingBox.intersects, eraser_square, Bool.and_eq_true,
        decide_eq_true_eq, ge_iff_le]
    · simp [hitStrokeB]
    · norm_num [zeroSeg, BezierSegment.evaluate, BezierSegment.width_at,
        Point.distance_to, opsId]
  have heval : find_strokes_to_erase opsId [hitStrokeA, hitStrokeB] ⟨0, 0⟩ 1 = [7, 7] := by
    rw [find_strokes_to_erase_eq_filter]
    rw [List.filter_cons, List.filter_cons, List.filter_nil]
    rw [if_pos (decide_eq_true hA), if_pos (decide_eq_true hB)]
    simp [hitStrokeA, hitStrokeB]
  refine ⟨by decide, heval, ?_⟩
  rw [heval]
  decide

end DrawEngineCore
